import Mathlib

/-!
Verification of the glyph-inventory and text-coverage engine of the
`extract-text` repository.

The embedding translates `src/font-extractor.ts` (inventory builder) and
the font-checker module (`checkCharInFont`, `checkTextInFont`,
`checkMultipleTextsInFont`) into Lean.  JavaScript strings are modelled as
lists of UTF-16 code units (`JSStr`), because the source manipulates
strings produced by `String.fromCharCode`, which can contain lone
surrogates that a Lean `String` cannot represent.  File reading and
`opentype.parse` are external boundaries: the Lean functions start from
the parsed `Font` value.
-/

/-- A JavaScript string, modelled as its sequence of UTF-16 code units. -/
abbrev JSStr := List Nat

/-- The code units of an ASCII Lean string literal, used to embed the
string literals appearing in the source. -/
def asciiStr (s : String) : JSStr := s.data.map Char.toNat

/-- The code units treated as whitespace by JavaScript
(`String.prototype.trim` and the regular-expression class): the ECMA-262
WhiteSpace and LineTerminator sets. -/
def isJSWhitespaceUnit (u : Nat) : Bool :=
  [0x9, 0xA, 0xB, 0xC, 0xD, 0x20, 0xA0, 0x1680, 0x2028, 0x2029,
   0x202F, 0x205F, 0x3000, 0xFEFF].contains u
  || (decide (0x2000 ≤ u) && decide (u ≤ 0x200A))

/-- Translation of `isPrintableChar` from `src/font-extractor.ts`.  The
range checks are the source's sequence of early-return `if`s.  The final
fallback computes `String.fromCharCode(unicode)` — a single code unit,
`unicode mod 2^16` — and tests `charCode.trim() !== '' || unicode === 0x20`;
`trim` of a one-unit string is empty exactly when the unit is a JavaScript
whitespace unit.  The `char` argument is present in the source signature
but never read. -/
def isPrintableChar (char : JSStr) (unicode : Nat) : Bool :=
  if 0x20 ≤ unicode ∧ unicode ≤ 0x7E then true
  else if 0xA0 ≤ unicode ∧ unicode ≤ 0xFF then true
  else if 0x4E00 ≤ unicode ∧ unicode ≤ 0x9FFF then true
  else if 0x3400 ≤ unicode ∧ unicode ≤ 0x4DBF then true
  else if 0x20000 ≤ unicode ∧ unicode ≤ 0x2A6DF then true
  else if 0x100 ≤ unicode ∧ unicode ≤ 0x17F then true
  else if 0x180 ≤ unicode ∧ unicode ≤ 0x24F then true
  else if 0x370 ≤ unicode ∧ unicode ≤ 0x3FF then true
  else if 0x400 ≤ unicode ∧ unicode ≤ 0x4FF then true
  else if 0x3040 ≤ unicode ∧ unicode ≤ 0x309F then true
  else if 0x30A0 ≤ unicode ∧ unicode ≤ 0x30FF then true
  else if 0xAC00 ≤ unicode ∧ unicode ≤ 0xD7AF then true
  else if 0x1F300 ≤ unicode ∧ unicode ≤ 0x1F9FF then true
  else if 0x1F < unicode ∧ ¬(0xD800 ≤ unicode ∧ unicode ≤ 0xDFFF) then
    if isJSWhitespaceUnit (unicode % 0x10000) = false ∨ unicode = 0x20 then true
    else false
  else false

/-- The character string the extractor builds for a glyph's code point:
`String.fromCharCode(unicode)` when `unicode ≤ 0xFFFF` (one code unit,
including lone surrogates), otherwise `String.fromCodePoint(unicode)`
(a surrogate pair); `none` models the `RangeError` thrown above
`0x10FFFF`, which the source catches and turns into a skip. -/
def codePointToChar (unicode : Nat) : Option JSStr :=
  if unicode ≤ 0xFFFF then some [unicode]
  else if unicode ≤ 0x10FFFF then
    some [0xD800 + (unicode - 0x10000) / 0x400, 0xDC00 + (unicode - 0x10000) % 0x400]
  else none

/-- An opentype.js glyph as the source reads it: an optional code point,
an optional name (`none` models `undefined`), and whether `glyph.path` is
present (the source only tests `path !== undefined && path !== null`). -/
structure FontGlyphEntry where
  unicode : Option Nat
  name : Option JSStr
  hasPath : Bool
deriving Repr, DecidableEq

/-- The name-table fields the source consults, already resolved through
the `?.en` step; `none` models a falsy (absent) value. -/
structure FontNames where
  fontFamily : Option JSStr
  fontSubfamily : Option JSStr
  fullName : Option JSStr
  postScriptName : Option JSStr
deriving Repr, DecidableEq

/-- A parsed font: the ordered glyph list and the name table. -/
structure Font where
  names : FontNames
  glyphs : List FontGlyphEntry
deriving Repr, DecidableEq

/-- The `outputFormat` option. -/
inductive OutputFormat
  | text
  | json
  | array
deriving Repr, DecidableEq

/-- `ExtractOptions` with the defaults the source destructuring supplies. -/
structure ExtractOptions where
  printableOnly : Bool := true
  includeControlChars : Bool := false
  filter : Option (JSStr → Nat → Bool) := none
  outputFormat : OutputFormat := OutputFormat.text

/-- A `FontGlyph` record of the inventory. -/
structure FontGlyph where
  unicode : Nat
  char : JSStr
  name : JSStr
  hasPath : Bool
deriving Repr, DecidableEq

/-- The `FontInfo` result of extraction. -/
structure FontInfo where
  familyName : JSStr
  subfamilyName : JSStr
  fullName : JSStr
  postScriptName : JSStr
  glyphCount : Nat
  glyphs : List FontGlyph
  extractedText : JSStr
deriving Repr, DecidableEq

/-- JavaScript `a || b` for an optional string `a`: `undefined` and the
empty string are falsy and fall through to `b`. -/
def jsOr (v : Option JSStr) (d : JSStr) : JSStr :=
  match v with
  | none => d
  | some s => if s = [] then d else s

/-- The synthetic glyph name `glyph_${i}`. -/
def glyphFallbackName (i : Nat) : JSStr := asciiStr "glyph_" ++ asciiStr (toString i)

/-- Lowercase hexadecimal digit unit. -/
def hexDigitUnit (n : Nat) : Nat := if n < 10 then 0x30 + n else 0x57 + n

/-- Four lowercase hexadecimal digits, for a `\u` escape. -/
def hex4 (n : Nat) : JSStr :=
  [hexDigitUnit (n / 4096 % 16), hexDigitUnit (n / 256 % 16),
   hexDigitUnit (n / 16 % 16), hexDigitUnit (n % 16)]

/-- Escape of a single code unit inside a JSON string literal, per
well-formed `JSON.stringify`: quote, backslash, the short control escapes,
`\u` escapes for remaining controls and for unpaired surrogates, and the
unit itself otherwise. -/
def jsonEscapeUnit (u : Nat) : JSStr :=
  if u = 0x22 then [0x5C, 0x22]
  else if u = 0x5C then [0x5C, 0x5C]
  else if u = 0x8 then [0x5C, 0x62]
  else if u = 0x9 then [0x5C, 0x74]
  else if u = 0xA then [0x5C, 0x6E]
  else if u = 0xC then [0x5C, 0x66]
  else if u = 0xD then [0x5C, 0x72]
  else if u < 0x20 then [0x5C, 0x75] ++ hex4 u
  else if 0xD800 ≤ u ∧ u ≤ 0xDFFF then [0x5C, 0x75] ++ hex4 u
  else [u]

/-- JSON string-content escaping over a unit sequence: a well-paired
surrogate pair passes through unescaped, every other unit is escaped
individually. -/
def jsonEscapeUnits : JSStr → JSStr
  | [] => []
  | [u] => jsonEscapeUnit u
  | u :: v :: rest =>
    if 0xD800 ≤ u ∧ u ≤ 0xDBFF ∧ 0xDC00 ≤ v ∧ v ≤ 0xDFFF then
      u :: v :: jsonEscapeUnits rest
    else jsonEscapeUnit u ++ jsonEscapeUnits (v :: rest)

/-- A JSON string literal. -/
def jsonQuote (s : JSStr) : JSStr := [0x22] ++ jsonEscapeUnits s ++ [0x22]

/-- Decimal JSON number literal for a natural number. -/
def jsonNatLit (n : Nat) : JSStr := asciiStr (toString n)

/-- JSON boolean literal. -/
def jsonBoolLit (b : Bool) : JSStr :=
  if b then asciiStr "true" else asciiStr "false"

/-- `JSON.stringify(strings, null, 2)`: the two-space-indented array of
string literals, `[]` when empty. -/
def jsonStringifyStrArray (items : List JSStr) : JSStr :=
  match items with
  | [] => asciiStr "[]"
  | _ =>
    asciiStr "[" ++ [0xA] ++
    List.intercalate (asciiStr "," ++ [0xA])
      (items.map (fun s => asciiStr "  " ++ jsonQuote s)) ++
    [0xA] ++ asciiStr "]"

/-- One `FontGlyph` object serialized at nesting depth 1 with indent 2,
fields in the insertion order of the source's object literal. -/
def jsonStringifyGlyph (g : FontGlyph) : JSStr :=
  asciiStr "\x7b" ++ [0xA] ++
  asciiStr "    " ++ jsonQuote (asciiStr "unicode") ++ asciiStr ": " ++
    jsonNatLit g.unicode ++ asciiStr "," ++ [0xA] ++
  asciiStr "    " ++ jsonQuote (asciiStr "char") ++ asciiStr ": " ++
    jsonQuote g.char ++ asciiStr "," ++ [0xA] ++
  asciiStr "    " ++ jsonQuote (asciiStr "name") ++ asciiStr ": " ++
    jsonQuote g.name ++ asciiStr "," ++ [0xA] ++
  asciiStr "    " ++ jsonQuote (asciiStr "hasPath") ++ asciiStr ": " ++
    jsonBoolLit g.hasPath ++ [0xA] ++
  asciiStr "  \x7d"

/-- `JSON.stringify(glyphs, null, 2)`. -/
def jsonStringifyGlyphArray (gs : List FontGlyph) : JSStr :=
  match gs with
  | [] => asciiStr "[]"
  | _ =>
    asciiStr "[" ++ [0xA] ++
    List.intercalate (asciiStr "," ++ [0xA])
      (gs.map (fun g => asciiStr "  " ++ jsonStringifyGlyph g)) ++
    [0xA] ++ asciiStr "]"

/-- The `switch (outputFormat)` computing `extractedText` from the sorted
record list. -/
def computeExtractedText (outputFormat : OutputFormat) (glyphs : List FontGlyph) : JSStr :=
  match outputFormat with
  | OutputFormat.array => jsonStringifyStrArray (glyphs.map (fun g => g.char))
  | OutputFormat.json => jsonStringifyGlyphArray glyphs
  | OutputFormat.text => (glyphs.map (fun g => g.char)).flatten

/-- The three-step `shouldInclude` computation shared verbatim by both
source variants: start `true`, clear on the printable filter (when
`printableOnly`), clear on the control-character filter (when
`includeControlChars` is false), and finally clear when a custom filter is
present, the flag is still set, and the filter rejects. -/
def shouldIncludeGlyph (printableOnly includeControlChars : Bool)
    (filter : Option (JSStr → Nat → Bool)) (char : JSStr) (unicode : Nat) : Bool :=
  let shouldInclude := true
  let shouldInclude :=
    if printableOnly = true ∧ isPrintableChar char unicode = false then false
    else shouldInclude
  let shouldInclude :=
    if includeControlChars = false ∧ 0x00 ≤ unicode ∧ unicode ≤ 0x1F then false
    else shouldInclude
  match filter with
  | some f =>
    if shouldInclude = true ∧ f char unicode = false then false else shouldInclude
  | none => shouldInclude

/-- The glyph-scanning loop of `extractTextFromFont`, parameterised by the
destructured options: per glyph, skip on absent `unicode`, convert the
code point to a character (skip on failure), apply the filters in source
order, skip characters already in `textSet`, and otherwise record a
`FontGlyph`. -/
def extractGlyphsAux (printableOnly includeControlChars : Bool)
    (filter : Option (JSStr → Nat → Bool)) :
    List FontGlyphEntry → Nat → List JSStr → List FontGlyph
  | [], _, _ => []
  | g :: rest, i, textSet =>
    match g.unicode with
    | none => extractGlyphsAux printableOnly includeControlChars filter rest (i + 1) textSet
    | some unicode =>
      match codePointToChar unicode with
      | none => extractGlyphsAux printableOnly includeControlChars filter rest (i + 1) textSet
      | some char =>
        if shouldIncludeGlyph printableOnly includeControlChars filter char unicode = false then
          extractGlyphsAux printableOnly includeControlChars filter rest (i + 1) textSet
        else if char ∈ textSet then
          extractGlyphsAux printableOnly includeControlChars filter rest (i + 1) textSet
        else
          { unicode := unicode, char := char,
            name := jsOr g.name (glyphFallbackName i),
            hasPath := g.hasPath } ::
          extractGlyphsAux printableOnly includeControlChars filter rest (i + 1)
            (char :: textSet)

/-- The order imposed by the comparator `(a, b) => a.unicode - b.unicode`.
`Array.prototype.sort` with this comparator produces the stable ascending
reordering by `unicode`; it is modelled by a stable sort
(`List.insertionSort`) under this relation. -/
def glyphLEr (a b : FontGlyph) : Prop := a.unicode ≤ b.unicode

instance : DecidableRel glyphLEr := fun a b => Nat.decLe a.unicode b.unicode

instance : IsTotal FontGlyph glyphLEr := ⟨fun a b => Nat.le_total a.unicode b.unicode⟩

instance : IsTrans FontGlyph glyphLEr := ⟨fun _ _ _ h h' => Nat.le_trans h h'⟩

/-- Translation of `extractTextFromFont` (`src/font-extractor.ts`), from
the point where the font has been parsed: metadata fallbacks, the glyph
scan, the sort by code point, and the `outputFormat` switch. -/
def extractTextFromFont (font : Font) (options : ExtractOptions) : FontInfo :=
  let printableOnly := options.printableOnly
  let includeControlChars := options.includeControlChars
  let filter := options.filter
  let outputFormat := options.outputFormat
  let familyName := jsOr font.names.fontFamily (asciiStr "Unknown")
  let subfamilyName := jsOr font.names.fontSubfamily (asciiStr "Unknown")
  let fullName := jsOr font.names.fullName (familyName ++ asciiStr " " ++ subfamilyName)
  let postScriptName :=
    jsOr font.names.postScriptName (fullName.filter (fun u => !isJSWhitespaceUnit u))
  let glyphs := extractGlyphsAux printableOnly includeControlChars filter font.glyphs 0 []
  let sorted := List.insertionSort glyphLEr glyphs
  { familyName := familyName, subfamilyName := subfamilyName,
    fullName := fullName, postScriptName := postScriptName,
    glyphCount := sorted.length, glyphs := sorted,
    extractedText := computeExtractedText outputFormat sorted }

/-- The glyph-scanning loop of `extractTextFromFontSync`; it differs from
the asynchronous one only in merging the two skip tests into
`if (!shouldInclude || textSet.has(char)) continue`. -/
def extractGlyphsAuxSync (printableOnly includeControlChars : Bool)
    (filter : Option (JSStr → Nat → Bool)) :
    List FontGlyphEntry → Nat → List JSStr → List FontGlyph
  | [], _, _ => []
  | g :: rest, i, textSet =>
    match g.unicode with
    | none => extractGlyphsAuxSync printableOnly includeControlChars filter rest (i + 1) textSet
    | some unicode =>
      match codePointToChar unicode with
      | none => extractGlyphsAuxSync printableOnly includeControlChars filter rest (i + 1) textSet
      | some char =>
        if shouldIncludeGlyph printableOnly includeControlChars filter char unicode = false
            ∨ char ∈ textSet then
          extractGlyphsAuxSync printableOnly includeControlChars filter rest (i + 1) textSet
        else
          { unicode := unicode, char := char,
            name := jsOr g.name (glyphFallbackName i),
            hasPath := g.hasPath } ::
          extractGlyphsAuxSync printableOnly includeControlChars filter rest (i + 1)
            (char :: textSet)

/-- Translation of `extractTextFromFontSync` (`src/font-extractor.ts`). -/
def extractTextFromFontSync (font : Font) (options : ExtractOptions) : FontInfo :=
  let printableOnly := options.printableOnly
  let includeControlChars := options.includeControlChars
  let filter := options.filter
  let outputFormat := options.outputFormat
  let familyName := jsOr font.names.fontFamily (asciiStr "Unknown")
  let subfamilyName := jsOr font.names.fontSubfamily (asciiStr "Unknown")
  let fullName := jsOr font.names.fullName (familyName ++ asciiStr " " ++ subfamilyName)
  let postScriptName :=
    jsOr font.names.postScriptName (fullName.filter (fun u => !isJSWhitespaceUnit u))
  let glyphs := extractGlyphsAuxSync printableOnly includeControlChars filter font.glyphs 0 []
  let sorted := List.insertionSort glyphLEr glyphs
  { familyName := familyName, subfamilyName := subfamilyName,
    fullName := fullName, postScriptName := postScriptName,
    glyphCount := sorted.length, glyphs := sorted,
    extractedText := computeExtractedText outputFormat sorted }

/-- `str.codePointAt(0)` (with the source's `?? charCodeAt(0)`): `none`
models the `NaN` obtained on the empty string; a leading high surrogate
followed by a low surrogate combines into the supplementary code point,
any other leading unit is returned as is. -/
def codePointAtZero : JSStr → Option Nat
  | [] => none
  | [u] => some u
  | u :: v :: _ =>
    if 0xD800 ≤ u ∧ u ≤ 0xDBFF ∧ 0xDC00 ≤ v ∧ v ≤ 0xDFFF then
      some (0x10000 + (u - 0xD800) * 0x400 + (v - 0xDC00))
    else some u

/-- `Array.from(text)`: the code-point-aware decomposition of a JavaScript
string into one-character strings; a well-paired surrogate pair is one
element, any other unit is an element on its own. -/
def decomposeJS : JSStr → List JSStr
  | [] => []
  | [u] => [[u]]
  | u :: v :: rest =>
    if 0xD800 ≤ u ∧ u ≤ 0xDBFF ∧ 0xDC00 ≤ v ∧ v ≤ 0xDFFF then
      [u, v] :: decomposeJS rest
    else [u] :: decomposeJS (v :: rest)

/-- JavaScript `===` between `glyph.unicode` (number or `undefined`) and
the query code point (number or `NaN`, both modelled by `Option Nat` with
`none` for the non-number cases, which compare unequal to everything). -/
def jsStrictEqNum (a b : Option Nat) : Bool :=
  match a, b with
  | some x, some y => x == y
  | _, _ => false

/-- The `CharCheckResult` record; `existsInFont` models the source field
`exists` (a reserved word in Lean). -/
structure CharCheckResult where
  char : JSStr
  unicode : Option Nat
  existsInFont : Bool
  glyphName : Option JSStr
deriving Repr, DecidableEq

/-- The linear scan of `checkCharInFont`: first glyph whose `unicode`
strictly equals the query, returning its (fallback-completed) name. -/
def checkCharScan : List FontGlyphEntry → Nat → Option Nat → Option JSStr
  | [], _, _ => none
  | g :: rest, i, unicode =>
    if jsStrictEqNum g.unicode unicode then some (jsOr g.name (glyphFallbackName i))
    else checkCharScan rest (i + 1) unicode

/-- Translation of `checkCharInFont` (font-checker module), from the
parsed font: code point of the query string via `codePointAt(0)`, then a
first-match linear scan over all glyphs. -/
def checkCharInFont (font : Font) (char : JSStr) : CharCheckResult :=
  let unicode := codePointAtZero char
  match checkCharScan font.glyphs 0 unicode with
  | some n =>
    { char := char, unicode := unicode, existsInFont := true, glyphName := some n }
  | none =>
    { char := char, unicode := unicode, existsInFont := false, glyphName := none }

/-- `Map.prototype.set`: replaces the value of an existing key, otherwise
appends the new binding. -/
def jsMapSet {α : Type} (m : List (Nat × α)) (k : Nat) (v : α) : List (Nat × α) :=
  if m.any (fun p => p.1 == k) then m.map (fun p => if p.1 = k then (k, v) else p)
  else m ++ [(k, v)]

/-- `Map.prototype.get`. -/
def jsMapGet {α : Type} (m : List (Nat × α)) (k : Nat) : Option α :=
  (m.find? (fun p => p.1 == k)).map (fun p => p.2)

/-- The map-building loop of `checkTextInFont`: one pass over the glyph
list, `set`ting each present code point to the glyph's name and index. -/
def buildUnicodeToGlyph :
    List FontGlyphEntry → Nat → List (Nat × (JSStr × Nat)) → List (Nat × (JSStr × Nat))
  | [], _, m => m
  | g :: rest, i, m =>
    match g.unicode with
    | some u => buildUnicodeToGlyph rest (i + 1) (jsMapSet m u (jsOr g.name (glyphFallbackName i), i))
    | none => buildUnicodeToGlyph rest (i + 1) m

/-- The `TextCheckResult` record. -/
structure TextCheckResult where
  text : JSStr
  chars : List CharCheckResult
  allExists : Bool
  missingChars : List JSStr
deriving Repr, DecidableEq

/-- The map lookup `unicodeToGlyph.get(unicode)` on the (possibly `NaN`)
code point of one character. -/
def lookupGlyphInfo (m : List (Nat × (JSStr × Nat))) :
    Option Nat → Option (JSStr × Nat)
  | some u => jsMapGet m u
  | none => none

/-- The per-character loop of `checkTextInFont`: look each decomposed
character's code point up in the map, record the result, and append the
character to the missing list when absent. -/
def checkTextLoop (m : List (Nat × (JSStr × Nat))) :
    List JSStr → List CharCheckResult × List JSStr
  | [] => ([], [])
  | c :: rest =>
    let unicode := codePointAtZero c
    let glyphInfo := lookupGlyphInfo m unicode
    let result : CharCheckResult :=
      { char := c, unicode := unicode, existsInFont := glyphInfo.isSome,
        glyphName := glyphInfo.map (fun p => p.1) }
    let tailRes := checkTextLoop m rest
    (result :: tailRes.1, if glyphInfo.isSome then tailRes.2 else c :: tailRes.2)

/-- Translation of `checkTextInFont` (font-checker module), from the
parsed font: decompose the text code-point-aware, build the lookup map
once, run the per-character loop, and aggregate `allExists`. -/
def checkTextInFont (font : Font) (text : JSStr) : TextCheckResult :=
  let chars := decomposeJS text
  let m := buildUnicodeToGlyph font.glyphs 0 []
  let results := checkTextLoop m chars
  { text := text, chars := results.1,
    allExists := results.2.length == 0,
    missingChars := results.2 }

/-- Translation of `checkMultipleTextsInFont`: one `checkTextInFont` per
input, in order. -/
def checkMultipleTextsInFont (font : Font) (texts : List JSStr) : List TextCheckResult :=
  texts.map (fun t => checkTextInFont font t)

/-! ### Specification-side definitions

These formalise wording of the specification (for comparison against the
translated code), together with the concrete fonts the theorems are
instantiated on. -/

/-- The enumerated Unicode ranges of the printable-character policy, as
the specification lists them, OR-combined. -/
def claimEnumRanges (u : Nat) : Bool :=
  (decide (0x20 ≤ u) && decide (u ≤ 0x7E)) ||
  (decide (0xA0 ≤ u) && decide (u ≤ 0xFF)) ||
  (decide (0x100 ≤ u) && decide (u ≤ 0x17F)) ||
  (decide (0x180 ≤ u) && decide (u ≤ 0x24F)) ||
  (decide (0x370 ≤ u) && decide (u ≤ 0x3FF)) ||
  (decide (0x400 ≤ u) && decide (u ≤ 0x4FF)) ||
  (decide (0x3040 ≤ u) && decide (u ≤ 0x309F)) ||
  (decide (0x30A0 ≤ u) && decide (u ≤ 0x30FF)) ||
  (decide (0xAC00 ≤ u) && decide (u ≤ 0xD7AF)) ||
  (decide (0x4E00 ≤ u) && decide (u ≤ 0x9FFF)) ||
  (decide (0x3400 ≤ u) && decide (u ≤ 0x4DBF)) ||
  (decide (0x20000 ≤ u) && decide (u ≤ 0x2A6DF)) ||
  (decide (0x1F300 ≤ u) && decide (u ≤ 0x1F9FF))

/-- The "rendered form of code point `u`" in the claim's sense: the
character for the code point itself (one code unit in the BMP, a
surrogate pair above it). -/
def claimRenderedForm (u : Nat) : JSStr :=
  if u ≤ 0xFFFF then [u]
  else [0xD800 + (u - 0x10000) / 0x400, 0xDC00 + (u - 0x10000) % 0x400]

/-- The printable-character classification exactly as the claim words it:
the enumerated ranges, or the fallback on code points above `0x1F`
outside the surrogate range whose rendered form is not
empty/whitespace-only (with `0x20` always printable). -/
def claimPrintable (u : Nat) : Bool :=
  claimEnumRanges u ||
  (decide (0x1F < u) && !(decide (0xD800 ≤ u) && decide (u ≤ 0xDFFF)) &&
   ((claimRenderedForm u).any (fun w => !isJSWhitespaceUnit w) || u == 0x20))

/-- The printable-character classification with the fallback amended to
what the code computes: the single UTF-16 code unit `u mod 2^16`
(JavaScript `String.fromCharCode(u)`) must not be a whitespace unit
(with `0x20` always printable). -/
def claimPrintableAmended (u : Nat) : Bool :=
  claimEnumRanges u ||
  (decide (0x1F < u) && !(decide (0xD800 ≤ u) && decide (u ≤ 0xDFFF)) &&
   (!isJSWhitespaceUnit (u % 0x10000) || u == 0x20))

/-- A Unicode scalar value: a code point that is not a surrogate. -/
def isScalarValue (u : Nat) : Prop :=
  u ≤ 0x10FFFF ∧ ¬(0xD800 ≤ u ∧ u ≤ 0xDFFF)

instance (u : Nat) : Decidable (isScalarValue u) := by
  unfold isScalarValue
  infer_instance

/-- The UTF-16 encoding of one scalar value. -/
def encodeScalar (u : Nat) : JSStr :=
  if u ≤ 0xFFFF then [u]
  else [0xD800 + (u - 0x10000) / 0x400, 0xDC00 + (u - 0x10000) % 0x400]

/-- The UTF-16 encoding of a sequence of scalar values: the JavaScript
string whose code-point decomposition is that sequence. -/
def encodeUTF16 (cps : List Nat) : JSStr := (cps.map encodeScalar).flatten

/-- The lowest-index glyph carrying a given code point, starting the
index count at `i`: the claim's "glyph with the lowest index". -/
def lowestIndexGlyphWith (u : Nat) :
    List FontGlyphEntry → Nat → Option (Nat × FontGlyphEntry)
  | [], _ => none
  | g :: rest, i =>
    if g.unicode = some u then some (i, g) else lowestIndexGlyphWith u rest (i + 1)

/-- A one-glyph font (the letter `A`), used to instantiate theorems. -/
def cFontA : Font :=
  { names := { fontFamily := none, fontSubfamily := none,
               fullName := none, postScriptName := none },
    glyphs := [{ unicode := some 0x41, name := some (asciiStr "A"), hasPath := true }] }

/-- A font with two glyphs for the control character `0x00`. -/
def cFontDupControl : Font :=
  { names := { fontFamily := none, fontSubfamily := none,
               fullName := none, postScriptName := none },
    glyphs := [{ unicode := some 0x00, name := some (asciiStr "nul1"), hasPath := true },
               { unicode := some 0x00, name := some (asciiStr "nul2"), hasPath := false }] }

/-- A font with two glyphs mapped to the same code point `0x41`, with
different names and path flags. -/
def cFontDupA : Font :=
  { names := { fontFamily := none, fontSubfamily := none,
               fullName := none, postScriptName := none },
    glyphs := [{ unicode := some 0x41, name := some (asciiStr "first"), hasPath := true },
               { unicode := some 0x41, name := some (asciiStr "second"), hasPath := false }] }

/-- A font containing a control character, a letter, and a glyph the
custom filter of the witnesses rejects. -/
def cFontMix : Font :=
  { names := { fontFamily := none, fontSubfamily := none,
               fullName := none, postScriptName := none },
    glyphs := [{ unicode := some 0x09, name := some (asciiStr "tab"), hasPath := false },
               { unicode := some 0x41, name := some (asciiStr "A"), hasPath := true },
               { unicode := some 0x42, name := some (asciiStr "B"), hasPath := true }] }

/-- A font containing a glyph outside the Basic Multilingual Plane. -/
def cFontSupp : Font :=
  { names := { fontFamily := none, fontSubfamily := none,
               fullName := none, postScriptName := none },
    glyphs := [{ unicode := some 0x41, name := some (asciiStr "A"), hasPath := true },
               { unicode := some 0x20000, name := some (asciiStr "ext"), hasPath := true }] }

/-- Options with a custom filter rejecting the code point `0x42`. -/
def cOpts3 : ExtractOptions := { filter := some (fun ch u => decide (u ≠ 0x42)) }

/-- The inventory record for the letter `A` in the witness fonts. -/
def cRec41 : FontGlyph := { unicode := 0x41, char := [0x41], name := [0x41], hasPath := true }

/-- The inventory record produced by the first duplicate glyph of
`cFontDupA`. -/
def cRecFirst : FontGlyph :=
  { unicode := 0x41, char := [0x41], name := asciiStr "first", hasPath := true }

/-! ### Lemmas and claim theorems -/


theorem shouldIncludeGlyph_eq_true {p c : Bool} {f : Option (JSStr → Nat → Bool)}
    {ch : JSStr} {u : Nat} :
    shouldIncludeGlyph p c f ch u = true ↔
      (p = true → isPrintableChar ch u = true) ∧
      (c = false → ¬(u ≤ 0x1F)) ∧
      (∀ fn, f = some fn → fn ch u = true) := by
  unfold shouldIncludeGlyph
  cases f with
  | none =>
    cases p <;> cases c <;> simp <;>
      cases hP : isPrintableChar ch u <;> simp_all
  | some fn =>
    cases p <;> cases c <;> simp <;>
      cases hP : isPrintableChar ch u <;> cases hV : fn ch u <;> simp_all

theorem mem_extractGlyphsAux {p c : Bool} {f : Option (JSStr → Nat → Bool)} :
    ∀ {gs : List FontGlyphEntry} {i : Nat} {ts : List JSStr} {r : FontGlyph},
      r ∈ extractGlyphsAux p c f gs i ts →
        r.char ∉ ts ∧ codePointToChar r.unicode = some r.char ∧
        shouldIncludeGlyph p c f r.char r.unicode = true := by
  intro gs
  induction gs with
  | nil => intro i ts r hr; simp [extractGlyphsAux] at hr
  | cons g rest ih =>
    intro i ts r hr
    rw [extractGlyphsAux] at hr
    cases hg : g.unicode with
    | none => simp only [hg] at hr; exact ih hr
    | some u =>
      simp only [hg] at hr
      cases hc : codePointToChar u with
      | none => simp only [hc] at hr; exact ih hr
      | some ch =>
        simp only [hc] at hr
        by_cases hs : shouldIncludeGlyph p c f ch u = false
        · rw [if_pos hs] at hr; exact ih hr
        · rw [if_neg hs] at hr
          by_cases hm : ch ∈ ts
          · rw [if_pos hm] at hr; exact ih hr
          · rw [if_neg hm] at hr
            rcases List.mem_cons.mp hr with h | h
            · subst h
              refine ⟨hm, hc, ?_⟩
              simpa using hs
            · have := ih h
              refine ⟨fun hmem => this.1 (List.mem_cons_of_mem _ hmem), this.2.1, this.2.2⟩

theorem codePointToChar_injective {u v : Nat} {s : JSStr}
    (hu : codePointToChar u = some s) (hv : codePointToChar v = some s) : u = v := by
  unfold codePointToChar at hu hv
  split_ifs at hu hv <;>
    (rw [Option.some.injEq] at hu hv; rw [← hu] at hv;
     simp only [List.cons.injEq, List.cons_ne_nil, and_false, and_true] at hv) <;>
    first
    | omega
    | exact absurd hv (by simp)

theorem pairwise_char_extractGlyphsAux {p c : Bool} {f : Option (JSStr → Nat → Bool)} :
    ∀ (gs : List FontGlyphEntry) (i : Nat) (ts : List JSStr),
      (extractGlyphsAux p c f gs i ts).Pairwise (fun a b => a.char ≠ b.char) := by
  intro gs
  induction gs with
  | nil => intro i ts; simp [extractGlyphsAux]
  | cons g rest ih =>
    intro i ts
    rw [extractGlyphsAux]
    split
    · exact ih (i + 1) ts
    · split
      · exact ih (i + 1) ts
      · split
        · exact ih (i + 1) ts
        · split
          · exact ih (i + 1) ts
          · refine List.Pairwise.cons ?_ (ih (i + 1) _)
            intro b hb
            have := (mem_extractGlyphsAux hb).1
            simp only [List.mem_cons] at this
            intro hEq
            exact this (Or.inl hEq.symm)

theorem codePointAtZero_single (u : Nat) : codePointAtZero [u] = some u := rfl

theorem codePointAtZero_pair (a b : Nat) :
    codePointAtZero [a, b] =
      if 0xD800 ≤ a ∧ a ≤ 0xDBFF ∧ 0xDC00 ≤ b ∧ b ≤ 0xDFFF then
        some (0x10000 + (a - 0xD800) * 0x400 + (b - 0xDC00))
      else some a := rfl

theorem codePointAtZero_codePointToChar {u : Nat} {s : JSStr}
    (h : codePointToChar u = some s) : codePointAtZero s = some u := by
  unfold codePointToChar at h
  split_ifs at h with h1 h2
  · simp only [Option.some.injEq] at h
    subst h
    rfl
  · simp only [Option.some.injEq] at h
    subst h
    rw [codePointAtZero_pair, if_pos]
    · exact congrArg some (by omega)
    · exact ⟨by omega, by omega, by omega, by omega⟩

theorem extractGlyphsAuxSync_eq {p c : Bool} {f : Option (JSStr → Nat → Bool)} :
    ∀ (gs : List FontGlyphEntry) (i : Nat) (ts : List JSStr),
      extractGlyphsAuxSync p c f gs i ts = extractGlyphsAux p c f gs i ts := by
  intro gs
  induction gs with
  | nil => intro i ts; rfl
  | cons g rest ih =>
    intro i ts
    rw [extractGlyphsAux, extractGlyphsAuxSync]
    split
    · exact ih (i + 1) ts
    · split
      · exact ih (i + 1) ts
      · rename_i u hg hcc ch hc
        by_cases hs : shouldIncludeGlyph p c f ch u = false
        · rw [if_pos (Or.inl hs), if_pos hs]
          exact ih (i + 1) ts
        · by_cases hm : ch ∈ ts
          · rw [if_pos (Or.inr hm), if_neg hs, if_pos hm]
            exact ih (i + 1) ts
          · rw [if_neg ?_, if_neg hs, if_neg hm]
            · rw [ih (i + 1) (ch :: ts)]
            · rintro (h | h)
              · exact hs h
              · exact hm h

theorem lowestIndexGlyphWith_mem {u : Nat} :
    ∀ {gs : List FontGlyphEntry} {i j : Nat} {g : FontGlyphEntry},
      lowestIndexGlyphWith u gs i = some (j, g) → g ∈ gs ∧ g.unicode = some u := by
  intro gs
  induction gs with
  | nil => intro i j g h; simp [lowestIndexGlyphWith] at h
  | cons g0 rest ih =>
    intro i j g h
    rw [lowestIndexGlyphWith] at h
    by_cases h0 : g0.unicode = some u
    · rw [if_pos h0] at h
      obtain ⟨rfl, rfl⟩ : i = j ∧ g0 = g := by
        simpa using h
      exact ⟨List.mem_cons_self _ _, h0⟩
    · rw [if_neg h0] at h
      obtain ⟨hm, hu⟩ := ih h
      exact ⟨List.mem_cons_of_mem _ hm, hu⟩

theorem mem_aux_lowestIndex {p c : Bool} {f : Option (JSStr → Nat → Bool)} :
    ∀ {gs : List FontGlyphEntry} {i : Nat} {ts : List JSStr} {r : FontGlyph},
      r ∈ extractGlyphsAux p c f gs i ts →
        ∃ j g, lowestIndexGlyphWith r.unicode gs i = some (j, g) ∧
          r.name = jsOr g.name (glyphFallbackName j) ∧ r.hasPath = g.hasPath := by
  intro gs
  induction gs with
  | nil => intro i ts r hr; simp [extractGlyphsAux] at hr
  | cons g0 rest ih =>
    intro i ts r hr
    rw [extractGlyphsAux] at hr
    rw [lowestIndexGlyphWith]
    cases hg : g0.unicode with
    | none =>
      simp only [hg] at hr
      rw [if_neg (by simp)]
      exact ih hr
    | some u =>
      simp only [hg] at hr
      cases hc : codePointToChar u with
      | none =>
        simp only [hc] at hr
        rw [if_neg ?_]
        · exact ih hr
        · intro hEq
          have h2 := (mem_extractGlyphsAux hr).2.1
          rw [Option.some.injEq] at hEq
          rw [← hEq] at h2
          rw [h2] at hc
          exact Option.noConfusion hc
      | some ch =>
        simp only [hc] at hr
        by_cases hs : shouldIncludeGlyph p c f ch u = false
        · rw [if_pos hs] at hr
          rw [if_neg ?_]
          · exact ih hr
          · intro hEq
            rw [Option.some.injEq] at hEq
            have h2 := (mem_extractGlyphsAux hr).2.1
            have h3 := (mem_extractGlyphsAux hr).2.2
            rw [← hEq] at h2
            rw [h2] at hc
            obtain rfl : r.char = ch := by simpa using hc
            rw [← hEq] at h3
            rw [h3] at hs
            exact Bool.noConfusion hs
        · rw [if_neg hs] at hr
          by_cases hm : ch ∈ ts
          · rw [if_pos hm] at hr
            rw [if_neg ?_]
            · exact ih hr
            · intro hEq
              rw [Option.some.injEq] at hEq
              have h1 := (mem_extractGlyphsAux hr).1
              have h2 := (mem_extractGlyphsAux hr).2.1
              rw [← hEq] at h2
              rw [h2] at hc
              obtain rfl : r.char = ch := by simpa using hc
              exact h1 hm
          · rw [if_neg hm] at hr
            rcases List.mem_cons.mp hr with hEq | hTail
            · subst hEq
              rw [if_pos rfl]
              exact ⟨i, g0, rfl, rfl, rfl⟩
            · rw [if_neg ?_]
              · exact ih hTail
              · intro hEq
                rw [Option.some.injEq] at hEq
                have h1 := (mem_extractGlyphsAux hTail).1
                have h2 := (mem_extractGlyphsAux hTail).2.1
                rw [← hEq] at h2
                rw [h2] at hc
                obtain rfl : r.char = ch := by simpa using hc
                exact h1 (List.mem_cons_self _ _)

theorem checkCharScan_isSome {u : Nat} :
    ∀ {gs : List FontGlyphEntry} (i : Nat),
      (∃ g ∈ gs, g.unicode = some u) → (checkCharScan gs i (some u)).isSome = true := by
  intro gs
  induction gs with
  | nil => intro i h; simp at h
  | cons g0 rest ih =>
    intro i h
    rw [checkCharScan]
    by_cases h0 : jsStrictEqNum g0.unicode (some u) = true
    · rw [if_pos h0]; rfl
    · rw [if_neg h0]
      rcases h with ⟨g, hg, hgu⟩
      rcases List.mem_cons.mp hg with rfl | hmem
      · exfalso
        apply h0
        rw [hgu]
        simp [jsStrictEqNum]
      · exact ih _ ⟨g, hmem, hgu⟩

theorem filter_unicode_length_one {u : Nat} :
    ∀ {l : List FontGlyph} {r : FontGlyph},
      l.Pairwise (fun a b => a.unicode ≠ b.unicode) → r ∈ l → r.unicode = u →
      (l.filter (fun x => x.unicode == u)).length = 1 := by
  intro l
  induction l with
  | nil => intro r _ hr; simp at hr
  | cons a rest ih =>
    intro r hp hr hu
    have hpTail := List.Pairwise.of_cons hp
    rcases List.mem_cons.mp hr with rfl | hmem
    · rw [List.filter_cons, if_pos (by simpa using hu)]
      have : rest.filter (fun x => x.unicode == u) = [] := by
        rw [List.filter_eq_nil_iff]
        intro b hb
        have := (List.pairwise_cons.mp hp).1 b hb
        rw [hu] at this
        simpa using Ne.symm this
      rw [this]
      rfl
    · rw [List.filter_cons, if_neg ?_]
      · exact ih hpTail hmem hu
      · have := (List.pairwise_cons.mp hp).1 r hmem
        rw [hu] at this
        simpa using this

theorem checkTextLoop_spec (m : List (Nat × (JSStr × Nat))) :
    ∀ cs : List JSStr,
      (checkTextLoop m cs).1.map (fun x => x.char) = cs ∧
      (checkTextLoop m cs).1.map (fun x => x.unicode) = cs.map codePointAtZero ∧
      (checkTextLoop m cs).2 =
        ((checkTextLoop m cs).1.filter (fun x => !x.existsInFont)).map (fun x => x.char) := by
  intro cs
  induction cs with
  | nil => exact ⟨rfl, rfl, rfl⟩
  | cons c rest ih =>
    simp only [checkTextLoop, List.map_cons]
    refine ⟨?_, ?_, ?_⟩
    · rw [ih.1]
    · rw [ih.2.1]
    · cases hG : lookupGlyphInfo m (codePointAtZero c) with
      | some gi =>
        simp only [hG, List.filter_cons, Option.isSome_some, Bool.not_true, if_true, if_false,
          Bool.false_eq_true, reduceIte]
        exact ih.2.2
      | none =>
        simp only [hG, List.filter_cons, Option.isSome_none, Bool.not_false, if_true,
          List.map_cons, reduceIte]
        rw [ih.2.2]
        simp

theorem decomposeJS_cons_nonhigh {u : Nat} (h : ¬(0xD800 ≤ u ∧ u ≤ 0xDBFF)) :
    ∀ rest : JSStr, decomposeJS (u :: rest) = [u] :: decomposeJS rest := by
  intro rest
  cases rest with
  | nil => rfl
  | cons v rest2 =>
    rw [decomposeJS, if_neg]
    intro hc
    exact h ⟨hc.1, hc.2.1⟩

theorem decomposeJS_encodeScalar {u : Nat} (h : isScalarValue u) :
    ∀ rest : JSStr, decomposeJS (encodeScalar u ++ rest) = encodeScalar u :: decomposeJS rest := by
  intro rest
  rcases h with ⟨hle, hns⟩
  by_cases h1 : u ≤ 0xFFFF
  · rw [encodeScalar, if_pos h1]
    simp only [List.cons_append, List.nil_append]
    exact decomposeJS_cons_nonhigh (by omega) rest
  · rw [encodeScalar, if_neg h1]
    simp only [List.cons_append, List.nil_append]
    rw [decomposeJS, if_pos]
    exact ⟨by omega, by omega, by omega, by omega⟩

theorem decomposeJS_encodeUTF16 {cps : List Nat} (h : ∀ u ∈ cps, isScalarValue u) :
    decomposeJS (encodeUTF16 cps) = cps.map encodeScalar := by
  induction cps with
  | nil => rfl
  | cons u rest ih =>
    rw [encodeUTF16, List.map_cons, List.flatten_cons]
    rw [decomposeJS_encodeScalar (h u (List.mem_cons_self _ _))]
    congr 1
    exact ih (fun v hv => h v (List.mem_cons_of_mem _ hv))

theorem codePointAtZero_encodeScalar {u : Nat} (h : isScalarValue u) :
    codePointAtZero (encodeScalar u) = some u := by
  rcases h with ⟨hle, hns⟩
  by_cases h1 : u ≤ 0xFFFF
  · rw [encodeScalar, if_pos h1]
    rfl
  · rw [encodeScalar, if_neg h1]
    rw [codePointAtZero_pair, if_pos]
    · exact congrArg some (by omega)
    · exact ⟨by omega, by omega, by omega, by omega⟩

theorem extract_glyphs_def (font : Font) (opts : ExtractOptions) :
    (extractTextFromFont font opts).glyphs =
      List.insertionSort glyphLEr
        (extractGlyphsAux opts.printableOnly opts.includeControlChars opts.filter
          font.glyphs 0 []) := rfl

theorem mem_extract_aux {font : Font} {opts : ExtractOptions} {r : FontGlyph}
    (h : r ∈ (extractTextFromFont font opts).glyphs) :
    r ∈ extractGlyphsAux opts.printableOnly opts.includeControlChars opts.filter
      font.glyphs 0 [] := by
  rw [extract_glyphs_def] at h
  exact (List.perm_insertionSort glyphLEr _).mem_iff.mp h

theorem pairwise_char_extract (font : Font) (opts : ExtractOptions) :
    (extractTextFromFont font opts).glyphs.Pairwise (fun a b => a.char ≠ b.char) := by
  rw [extract_glyphs_def]
  refine ((List.perm_insertionSort glyphLEr _).pairwise_iff ?_).mpr
    (pairwise_char_extractGlyphsAux _ 0 [])
  intro a b hab
  exact hab.symm

theorem pairwise_unicode_extract (font : Font) (opts : ExtractOptions) :
    (extractTextFromFont font opts).glyphs.Pairwise (fun a b => a.unicode ≠ b.unicode) := by
  refine List.Pairwise.imp_of_mem ?_ (pairwise_char_extract font opts)
  intro a b ha hb hne hEq
  have ha2 := (mem_extractGlyphsAux (mem_extract_aux ha)).2.1
  have hb2 := (mem_extractGlyphsAux (mem_extract_aux hb)).2.1
  rw [hEq] at ha2
  rw [ha2] at hb2
  exact hne (Option.some.inj hb2)


/-- C1 counterexample: with `outputFormat := array`, the `extractedText`
of the inventory of a one-glyph font is the JSON serialization
`[\n  "A"\n]`, not the concatenation `"A"` of the included characters,
refuting the claim that `extractedText` equals the concatenation for
every choice of `outputFormat`. -/
theorem c1_counterexample :
    (extractTextFromFont cFontA { outputFormat := OutputFormat.array }).extractedText ≠
      ((extractTextFromFont cFontA { outputFormat := OutputFormat.array }).glyphs.map
        (fun g => g.char)).flatten := by decide

/-- C1 (amended): when `outputFormat` is `text` (the default), the
`extractedText` of the inventory equals the concatenation of all included
characters in ascending-unicode sorted order; and the `glyphs` list is
unaffected by `outputFormat`, which remains a pure presentation
transform that never changes which glyphs are included. -/
theorem c1_amended (font : Font) (opts : ExtractOptions) :
    (extractTextFromFont font { opts with outputFormat := OutputFormat.text }).extractedText =
      ((extractTextFromFont font opts).glyphs.map (fun g => g.char)).flatten ∧
    (extractTextFromFont font opts).glyphs =
      (extractTextFromFont font { opts with outputFormat := OutputFormat.text }).glyphs :=
  ⟨rfl, rfl⟩

/-- C2 counterexample: at the code point `0x13000` (an Egyptian
hieroglyph, whose extractor character is the surrogate pair
`[0xD80C, 0xDC00]`), the claimed classification (rendered form of the
code point itself is not whitespace, hence printable) disagrees with
`isPrintableChar`, which computes `String.fromCharCode(0x13000)` — the
single unit `0x3000`, the ideographic space — and classifies the
character as non-printable. -/
theorem c2_counterexample :
    ¬(isPrintableChar [0xD80C, 0xDC00] 0x13000 = true ↔ claimPrintable 0x13000 = true) := by
  decide

/-- Rewriting of `if P then true else b` into a Boolean disjunction. -/
theorem ite_true_or {P : Prop} [Decidable P] (b : Bool) :
    (if P then true else b) = (decide P || b) := by
  by_cases h : P <;> simp [h]

/-- Rewriting of `if P then b else false` into a Boolean conjunction. -/
theorem ite_false_and {P : Prop} [Decidable P] (b : Bool) :
    (if P then b else false) = (decide P && b) := by
  by_cases h : P <;> simp [h]

/-- Characterisation of `isPrintableChar` as a single disjunction of its
range tests and fallback. -/
theorem isPrintableChar_eq_true_iff (char : JSStr) (u : Nat) :
    isPrintableChar char u = true ↔
      ((0x20 ≤ u ∧ u ≤ 0x7E) ∨ (0xA0 ≤ u ∧ u ≤ 0xFF) ∨ (0x4E00 ≤ u ∧ u ≤ 0x9FFF) ∨
       (0x3400 ≤ u ∧ u ≤ 0x4DBF) ∨ (0x20000 ≤ u ∧ u ≤ 0x2A6DF) ∨
       (0x100 ≤ u ∧ u ≤ 0x17F) ∨ (0x180 ≤ u ∧ u ≤ 0x24F) ∨ (0x370 ≤ u ∧ u ≤ 0x3FF) ∨
       (0x400 ≤ u ∧ u ≤ 0x4FF) ∨ (0x3040 ≤ u ∧ u ≤ 0x309F) ∨ (0x30A0 ≤ u ∧ u ≤ 0x30FF) ∨
       (0xAC00 ≤ u ∧ u ≤ 0xD7AF) ∨ (0x1F300 ≤ u ∧ u ≤ 0x1F9FF) ∨
       ((0x1F < u ∧ ¬(0xD800 ≤ u ∧ u ≤ 0xDFFF)) ∧
        (isJSWhitespaceUnit (u % 0x10000) = false ∨ u = 0x20))) := by
  unfold isPrintableChar
  simp only [ite_true_or, ite_false_and, Bool.or_false, Bool.and_true, Bool.or_eq_true,
    Bool.and_eq_true, decide_eq_true_eq]

/-- C2 (amended): `isPrintableChar char u` is true iff `u` lies in one
of the enumerated Unicode ranges, or `u > 0x1F`, `u` is outside the
surrogate range `[0xD800, 0xDFFF]`, and the single UTF-16 code unit
`u mod 2^16` (JavaScript `String.fromCharCode(u)`) is not a whitespace
unit (with the literal space `0x20` always printable); all other code
points are non-printable. -/
theorem c2_amended (char : JSStr) (u : Nat) :
    isPrintableChar char u = claimPrintableAmended u := by
  rw [Bool.eq_iff_iff, isPrintableChar_eq_true_iff]
  unfold claimPrintableAmended claimEnumRanges
  cases hw : isJSWhitespaceUnit (u % 0x10000) <;>
    simp only [hw, Bool.or_eq_true, Bool.and_eq_true, decide_eq_true_eq, Bool.not_eq_true',
      beq_iff_eq, Bool.not_true, Bool.not_false, eq_self_iff_true, true_or, or_true,
      true_and, and_true, Bool.true_eq_false, Bool.false_eq_true, false_or, or_false,
      false_and, and_false, Bool.and_eq_false_iff, decide_eq_false_iff_not] <;>
    omega

/-- C3: for every font, options and inventory record, when
`includeControlChars` is false no record has a code point in
`[0x00, 0x1F]` — regardless of `printableOnly` and of the custom
filter — and every record also passed the printable filter (when
enabled) and the custom filter (when present): exclusion is OR-combined
across the three filters, and the custom filter can only further
exclude, never re-include. -/
theorem c3 (font : Font) (opts : ExtractOptions) (r : FontGlyph)
    (h : r ∈ (extractTextFromFont font opts).glyphs)
    (hcc : opts.includeControlChars = false) :
    ¬(r.unicode ≤ 0x1F) ∧
    (opts.printableOnly = true → isPrintableChar r.char r.unicode = true) ∧
    (∀ fn, opts.filter = some fn → fn r.char r.unicode = true) := by
  have hs := (mem_extractGlyphsAux (mem_extract_aux h)).2.2
  obtain ⟨hp, hc, hf⟩ := shouldIncludeGlyph_eq_true.mp hs
  exact ⟨hc hcc, hp, hf⟩

/-- C4: for every font and options, the inventory's `glyphs` list is
sorted (every adjacent pair has non-decreasing `unicode`) and
deduplicated (no two records share the same `char` string). -/
theorem c4 (font : Font) (opts : ExtractOptions) :
    List.Chain' (fun a b => a.unicode ≤ b.unicode) (extractTextFromFont font opts).glyphs ∧
    (extractTextFromFont font opts).glyphs.Pairwise (fun a b => a.char ≠ b.char) := by
  constructor
  · have hs := List.sorted_insertionSort glyphLEr
      (extractGlyphsAux opts.printableOnly opts.includeControlChars opts.filter font.glyphs 0 [])
    rw [extract_glyphs_def]
    exact List.Pairwise.chain' hs
  · exact pairwise_char_extract font opts

/-- C5: for every font and input string (including the empty string),
the `TextCheckResult` satisfies `allExists = true` iff `missingChars`
is empty iff every entry of `chars` has `exists` true; `missingChars`
is exactly the characters of the failing entries in original order with
duplicates retained; and `chars` has one entry per decomposed character
of the text, in the original order, neither deduplicated nor
reordered. -/
theorem c5 (font : Font) (text : JSStr) :
    ((checkTextInFont font text).allExists = true ↔
      (checkTextInFont font text).missingChars = []) ∧
    ((checkTextInFont font text).allExists = true ↔
      ∀ x ∈ (checkTextInFont font text).chars, x.existsInFont = true) ∧
    (checkTextInFont font text).missingChars =
      ((checkTextInFont font text).chars.filter (fun x => !x.existsInFont)).map
        (fun x => x.char) ∧
    (checkTextInFont font text).chars.map (fun x => x.char) = decomposeJS text := by
  obtain ⟨h1, h2, h3⟩ := checkTextLoop_spec (buildUnicodeToGlyph font.glyphs 0 [])
    (decomposeJS text)
  have hAll : (checkTextInFont font text).allExists =
      ((checkTextInFont font text).missingChars.length == 0) := rfl
  refine ⟨?_, ?_, h3, h1⟩
  · rw [hAll]
    simp [List.length_eq_zero]
  · rw [hAll]
    simp only [beq_iff_eq, List.length_eq_zero]
    show (checkTextLoop _ _).2 = [] ↔ _
    rw [h3]
    simp only [List.map_eq_nil_iff, List.filter_eq_nil_iff, Bool.not_eq_true',
      Bool.not_eq_false]
    exact Iff.rfl

/-- C6: `checkTextInFont` decomposes its input into full Unicode scalar
values — for a text encoding a list of scalar values, `chars` has
exactly one entry per scalar value, carrying that code point (so
`U+20000` counts as one entry) — and `extractTextFromFont` keys its
deduplication on the full scalar: record characters are exactly the
encodings of their code points and no two records share a code
point. -/
theorem c6 (font : Font) (opts : ExtractOptions) (cps : List Nat)
    (h : ∀ u ∈ cps, isScalarValue u) :
    (checkTextInFont font (encodeUTF16 cps)).chars.map (fun x => x.unicode) = cps.map some ∧
    (checkTextInFont font (encodeUTF16 cps)).chars.length = cps.length ∧
    (extractTextFromFont font opts).glyphs.Pairwise (fun a b => a.unicode ≠ b.unicode) ∧
    ∀ r ∈ (extractTextFromFont font opts).glyphs, codePointToChar r.unicode = some r.char := by
  obtain ⟨h1, h2, _⟩ := checkTextLoop_spec (buildUnicodeToGlyph font.glyphs 0 [])
    (decomposeJS (encodeUTF16 cps))
  have hdec : decomposeJS (encodeUTF16 cps) = cps.map encodeScalar :=
    decomposeJS_encodeUTF16 h
  refine ⟨?_, ?_, pairwise_unicode_extract font opts, ?_⟩
  · show (checkTextLoop _ _).1.map (fun x => x.unicode) = _
    rw [h2, hdec, List.map_map]
    exact List.map_congr_left (fun u hu => codePointAtZero_encodeScalar (h u hu))
  · show (checkTextLoop _ _).1.length = _
    have hlen := congrArg List.length h1
    rw [List.length_map] at hlen
    rw [hlen, hdec, List.length_map]
  · intro r hr
    exact (mem_extractGlyphsAux (mem_extract_aux hr)).2.1

/-- C7 counterexample: with `outputFormat := array`, the character `[`
occurs in the `extractedText` of a font containing only the glyph `A`,
yet `checkCharInFont` reports it as missing — refuting the claim for
every options value. -/
theorem c7_counterexample :
    [0x5B] ∈ decomposeJS
      ((extractTextFromFont cFontA { outputFormat := OutputFormat.array }).extractedText) ∧
    (checkCharInFont cFontA [0x5B]).existsInFont = false := by decide

/-- C7 (amended): for every font and options, every inventory record's
character — that is, every character concatenated into `extractedText`
under the `text` output format — is reported present by
`checkCharInFont`. -/
theorem c7_amended (font : Font) (opts : ExtractOptions) (r : FontGlyph)
    (h : r ∈ (extractTextFromFont font opts).glyphs) :
    (checkCharInFont font r.char).existsInFont = true := by
  have hmem := mem_extract_aux h
  have hspec := mem_extractGlyphsAux hmem
  obtain ⟨j, g, hfirst, _, _⟩ := mem_aux_lowestIndex hmem
  obtain ⟨hgmem, hgu⟩ := lowestIndexGlyphWith_mem hfirst
  have hcp : codePointAtZero r.char = some r.unicode :=
    codePointAtZero_codePointToChar hspec.2.1
  have hscan := checkCharScan_isSome (u := r.unicode) 0 ⟨g, hgmem, hgu⟩
  unfold checkCharInFont
  rw [hcp]
  cases hsc : checkCharScan font.glyphs 0 (some r.unicode) with
  | none => rw [hsc] at hscan; exact absurd hscan (by simp)
  | some n => simp only [hsc]

/-- C8 counterexample: a font whose two glyphs both map to the control
code point `0x00` produces, under the default options, an inventory with
no record at all for that character — not exactly one — because the
control-character filter removes every duplicate. -/
theorem c8_counterexample :
    cFontDupControl.glyphs.map (fun g => g.unicode) = [some 0x00, some 0x00] ∧
    (extractTextFromFont cFontDupControl {}).glyphs = [] := by decide

/-- C8 (amended): for every font and options, the inventory contains at
most one record per code point — exactly one whenever any record for it
exists — and that record's `name` and path-presence flag come from the
glyph with the lowest index among those mapping to that code point;
later duplicates are ignored. -/
theorem c8_amended (font : Font) (opts : ExtractOptions) (u : Nat) (r : FontGlyph)
    (h : r ∈ (extractTextFromFont font opts).glyphs) (hu : r.unicode = u) :
    ((extractTextFromFont font opts).glyphs.filter (fun x => x.unicode == u)).length = 1 ∧
    ∃ j g, lowestIndexGlyphWith u font.glyphs 0 = some (j, g) ∧ g.unicode = some u ∧
      r.name = jsOr g.name (glyphFallbackName j) ∧ r.hasPath = g.hasPath := by
  subst hu
  constructor
  · exact filter_unicode_length_one (pairwise_unicode_extract font opts) h rfl
  · obtain ⟨j, g, hfirst, hname, hpath⟩ := mem_aux_lowestIndex (mem_extract_aux h)
    exact ⟨j, g, hfirst, (lowestIndexGlyphWith_mem hfirst).2, hname, hpath⟩

/-- C9: `extractTextFromFontSync` returns a `FontInfo` identical to the
one returned by `extractTextFromFont` on the same font and options:
same metadata fallbacks, filtering, deduplication, sorting,
`extractedText` and `glyphCount`. -/
theorem c9 (font : Font) (opts : ExtractOptions) :
    extractTextFromFont font opts = extractTextFromFontSync font opts := by
  simp only [extractTextFromFont, extractTextFromFontSync, extractGlyphsAuxSync_eq]

theorem codePointAtZero_cons2 (u v : Nat) (tail : JSStr) :
    codePointAtZero (u :: v :: tail) =
      if 0xD800 ≤ u ∧ u ≤ 0xDBFF ∧ 0xDC00 ≤ v ∧ v ≤ 0xDFFF then
        some (0x10000 + (u - 0xD800) * 0x400 + (v - 0xDC00))
      else some u := rfl

theorem codePointAtZero_head_decompose {s c : JSStr} {cs : List JSStr}
    (h : decomposeJS s = c :: cs) : codePointAtZero s = codePointAtZero c := by
  match s with
  | [] => simp [decomposeJS] at h
  | [u] =>
    rw [show decomposeJS [u] = [[u]] from rfl] at h
    obtain ⟨rfl, _⟩ : [u] = c ∧ [] = cs := by simpa using h
    rfl
  | u :: v :: rest =>
    rw [decomposeJS] at h
    by_cases hp : 0xD800 ≤ u ∧ u ≤ 0xDBFF ∧ 0xDC00 ≤ v ∧ v ≤ 0xDFFF
    · rw [if_pos hp] at h
      obtain ⟨rfl, _⟩ : [u, v] = c ∧ decomposeJS rest = cs := by simpa using h
      rw [codePointAtZero_cons2, codePointAtZero_pair]
    · rw [if_neg hp] at h
      obtain ⟨rfl, _⟩ : [u] = c ∧ decomposeJS (v :: rest) = cs := by simpa using h
      rw [codePointAtZero_cons2, if_neg hp]
      rfl

/-- C10: on an input of two or more scalar values, `checkCharInFont`
decides existence from the first scalar value only: `unicode` is the
first code point, `exists` and `glyphName` agree with the result for the
first character alone, while `char` echoes the full input string. -/
theorem c10 (font : Font) (s c : JSStr) (cs : List JSStr)
    (h : decomposeJS s = c :: cs) (h2 : cs ≠ []) :
    (checkCharInFont font s).char = s ∧
    (checkCharInFont font s).unicode = codePointAtZero c ∧
    (checkCharInFont font s).existsInFont = (checkCharInFont font c).existsInFont ∧
    (checkCharInFont font s).glyphName = (checkCharInFont font c).glyphName := by
  have hcp : codePointAtZero s = codePointAtZero c := codePointAtZero_head_decompose h
  simp only [checkCharInFont]
  rw [hcp]
  cases checkCharScan font.glyphs 0 (codePointAtZero c) <;> exact ⟨rfl, rfl, rfl, rfl⟩




/-- C3 witness: concrete instantiation on a three-glyph font with a
custom filter rejecting `B`. -/
theorem c3_witness :
    (cRec41 ∈ (extractTextFromFont cFontMix cOpts3).glyphs ∧
      cOpts3.includeControlChars = false) ∧
    (¬(cRec41.unicode ≤ 0x1F) ∧
     (cOpts3.printableOnly = true → isPrintableChar cRec41.char cRec41.unicode = true) ∧
     (∀ fn, cOpts3.filter = some fn → fn cRec41.char cRec41.unicode = true)) :=
  ⟨⟨by decide, rfl⟩, c3 cFontMix cOpts3 cRec41 (by decide) rfl⟩

/-- C6 witness: concrete instantiation on the scalar values
`[0x41, 0x20000]` and a font containing a glyph beyond the BMP. -/
theorem c6_witness :
    (∀ u ∈ [0x41, 0x20000], isScalarValue u) ∧
    ((checkTextInFont cFontSupp (encodeUTF16 [0x41, 0x20000])).chars.map (fun x => x.unicode) =
        [0x41, 0x20000].map some ∧
     (checkTextInFont cFontSupp (encodeUTF16 [0x41, 0x20000])).chars.length =
        ([0x41, 0x20000] : List Nat).length ∧
     (extractTextFromFont cFontSupp {}).glyphs.Pairwise (fun a b => a.unicode ≠ b.unicode) ∧
     ∀ r ∈ (extractTextFromFont cFontSupp {}).glyphs,
       codePointToChar r.unicode = some r.char) :=
  ⟨by decide, c6 cFontSupp {} [0x41, 0x20000] (by decide)⟩

/-- C7 witness: concrete instantiation on the one-glyph font. -/
theorem c7_witness :
    cRec41 ∈ (extractTextFromFont cFontA {}).glyphs ∧
    (checkCharInFont cFontA cRec41.char).existsInFont = true :=
  ⟨by decide, c7_amended cFontA {} cRec41 (by decide)⟩

/-- C8 witness: concrete instantiation on the font with two glyphs for
`0x41`; the surviving record carries the first glyph's name. -/
theorem c8_witness :
    cRecFirst ∈ (extractTextFromFont cFontDupA {}).glyphs ∧
    (((extractTextFromFont cFontDupA {}).glyphs.filter
        (fun x => x.unicode == 0x41)).length = 1 ∧
     ∃ j g, lowestIndexGlyphWith 0x41 cFontDupA.glyphs 0 = some (j, g) ∧
       g.unicode = some 0x41 ∧
       cRecFirst.name = jsOr g.name (glyphFallbackName j) ∧
       cRecFirst.hasPath = g.hasPath) :=
  ⟨by decide, c8_amended cFontDupA {} 0x41 cRecFirst (by decide) rfl⟩

/-- C10 witness: concrete instantiation on the two-character string
`"AB"`. -/
theorem c10_witness :
    (decomposeJS [0x41, 0x42] = [0x41] :: [[0x42]] ∧ ([[0x42]] : List JSStr) ≠ []) ∧
    ((checkCharInFont cFontA [0x41, 0x42]).char = [0x41, 0x42] ∧
     (checkCharInFont cFontA [0x41, 0x42]).unicode = codePointAtZero [0x41] ∧
     (checkCharInFont cFontA [0x41, 0x42]).existsInFont =
       (checkCharInFont cFontA [0x41]).existsInFont ∧
     (checkCharInFont cFontA [0x41, 0x42]).glyphName =
       (checkCharInFont cFontA [0x41]).glyphName) :=
  ⟨⟨by decide, by decide⟩, c10 cFontA [0x41, 0x42] [0x41] [[0x42]] (by decide) (by decide)⟩
